import Mathlib

/-!
Shallow embedding of the `thermal_printer_rs` repository.

* `BitImage` and its accessors follow `src/bitimage.rs`.
* The dithering helpers (`Dither.get_pixel`, `Dither.set_pixel`,
  `Dither.add_error`), the per-pixel dither step and the chunked bitmap
  transmitter follow `src/printing.rs`.

Bytes are modelled as natural numbers below 256; `isize` coordinates are
modelled as `Int`.  A Rust panic is modelled by `Option`: `none` is the
panicking execution.
-/

set_option maxRecDepth 8000

/-- Struct `BitImage` from `src/bitimage.rs`: a packed 1-bit-per-pixel bitmap.
`bytes` is the flat row-major buffer, `w_bytes` the number of bytes per row. -/
structure BitImage where
  bytes : List Nat
  width : Nat
  height : Nat
  w_bytes : Nat
deriving DecidableEq, Repr

namespace BitImage

/-- Constructor `BitImage::new(w, h)`.  The source computes the per-row byte count as
`(w as f64 / 8.0).ceil() as usize`; `w / 8` is exact in `f64` for every
`w < 2^53`, so this equals `(w + 7) / 8`.  The buffer is filled with
`capacity` zero bytes. -/
def new (w h : Nat) : BitImage :=
  { bytes := List.replicate ((w + 7) / 8 * h) 0
    width := w
    height := h
    w_bytes := (w + 7) / 8 }

/-- Check `BitImage::is_within_bounds(x, y)` as a predicate: `true` when the
source does not panic, i.e. unless `x < 0 || x >= width || y < 0 || y >= height`. -/
def is_within_bounds (img : BitImage) (x y : Int) : Bool :=
  if x < 0 ∨ (img.width : Int) ≤ x ∨ y < 0 ∨ (img.height : Int) ≤ y then false else true

/-- Accessor `BitImage::get_pixel(x, y)`.  Here `position = 1 << x % 8` (no `u8` truncation:
the shift amount is below 8), the byte index is `x as usize / 8 + y * w_bytes`,
and the result is `pixel_byte | position == pixel_byte`.  `none` models the
two panic paths (bounds check and failed buffer lookup). -/
def get_pixel (img : BitImage) (x y : Int) : Option Bool :=
  if img.is_within_bounds x y then
    match img.bytes[x.toNat / 8 + y.toNat * img.w_bytes]? with
    | some b => some (decide (b ||| 1 <<< (x % 8).toNat = b))
    | none => none
  else none

/-- Accessor `BitImage::set_pixel(x, y, val)`.  Here `position = 128 >> x % 8`; the byte
index `(x as f64 / 8.0).floor() as usize + y * w_bytes` equals
`x.toNat / 8 + y.toNat * w_bytes` (after the bounds check `x ≥ 0`, and `x / 8`
is exact in `f64` below `2^53`).  The `u8` complement `!position` is
`255 ^^^ position`. -/
def set_pixel (img : BitImage) (x y : Int) (val : Bool) : Option BitImage :=
  if img.is_within_bounds x y then
    match img.bytes[x.toNat / 8 + y.toNat * img.w_bytes]? with
    | some b =>
        some { img with
                 bytes := img.bytes.set (x.toNat / 8 + y.toNat * img.w_bytes)
                   (if val then b ||| 128 >>> (x % 8).toNat
                    else b &&& (255 ^^^ 128 >>> (x % 8).toNat)) }
    | none => none
  else none

/-- Observation helper: the stored bit for pixel `(x, y)`, i.e. bit
`7 - x % 8` of byte `y * w_bytes + x / 8` (the bit that `set_pixel` writes). -/
def pixel_bit (img : BitImage) (x y : Nat) : Bool :=
  (img.bytes.getD (x / 8 + y * img.w_bytes) 0).testBit (7 - x % 8)

end BitImage

namespace Dither

/-- The in-bounds test shared by the three helpers nested in
`Printer::print_image`:
`x >= 0 && x < vector.len() && y >= 0 && y < vector.get(0).unwrap().len()`.
(`vector.get(0).unwrap()` is modelled by `headD []`; all buffers built by the
pipeline are non-empty rectangular vectors, where the `unwrap` succeeds.) -/
def vecInBounds (v : List (List Nat)) (x y : Int) : Bool :=
  if 0 ≤ x ∧ x < (v.length : Int) ∧ 0 ≤ y ∧ y < ((v.headD []).length : Int) then true else false

/-- The nested `get_pixel` helper of `print_image`: `vector[x][y]` when in
bounds, `0` otherwise.  (On the in-bounds path the lookups in the source cannot
fail for the rectangular buffers used by the pipeline.) -/
def get_pixel (v : List (List Nat)) (x y : Int) : Nat :=
  if vecInBounds v x y then (v.getD x.toNat []).getD y.toNat 0 else 0

/-- The nested `set_pixel` helper of `print_image`: writes `vector[x][y] = val`
when in bounds, otherwise does nothing.  (`List.set` past the end is a no-op,
matching the silent `if let` fallthrough.) -/
def set_pixel (v : List (List Nat)) (x y : Int) (val : Nat) : List (List Nat) :=
  if vecInBounds v x y then v.set x.toNat ((v.getD x.toNat []).set y.toNat val) else v

/-- The rounding performed by `add_error`:
`(val as f32 * (importance as f32 / 16.0)).round() as i32`.
For the values that occur (`|val| ≤ 255`, `importance ∈ {1,3,5,7}`) the `f32`
product is exactly `val * importance / 16` (numerator below `2^24`, dyadic
denominator), and the Rust `round` rounds halves away from zero. -/
def round_div16 (n : Int) : Int :=
  if 0 ≤ n then (n + 8) / 16 else -((-n + 8) / 16)

/-- The nested `add_error` helper of `print_image`: adds
`round(val * importance / 16)` to `vector[x][y]`, clamped to `[0, 255]`,
when `(x, y)` is in bounds; otherwise does nothing. -/
def add_error (v : List (List Nat)) (x y : Int) (val importance : Int) : List (List Nat) :=
  let error : Int := round_div16 (val * importance)
  if vecInBounds v x y then
    v.set x.toNat ((v.getD x.toNat []).set y.toNat
      (min (max (((v.getD x.toNat []).getD y.toNat 0 : Int) + error) 0) 255).toNat)
  else v

/-- The quantization error chosen by the `match` in the dither loop:
`x - 255` when the sample exceeds 127, else `x` (that is, `x - 0`). -/
def quant_error (g : List (List Nat)) (x y : Nat) : Int :=
  (get_pixel g x y : Int) - (if 127 < get_pixel g x y then 255 else 0)

/-- One iteration of the dither loop in `Printer::print_image`, acting on the
grayscale buffer and the `BitImage` under construction.  The leading guard is
the `continue` test of the loop (`pos.0 > grayscale.len() || pos.1 > grayscale[0].len()`,
with strict `>` as in the source).  The locals of the source are inlined: `x` in
its `match` is `get_pixel st.1 x y` read before the pixel is overwritten, and
`error` is that sample minus 255 (above the threshold) or minus 0 (otherwise);
the four `add_error` calls act on the buffer after `set_pixel`.  In the loop
`x < width` and `y < height`, so the bitmap `set_pixel` cannot hit its
panic path; `getD` keeps the function total. -/
def dither_step (st : List (List Nat) × BitImage) (x y : Nat) :
    List (List Nat) × BitImage :=
  if st.1.length < x ∨ (st.1.headD []).length < y then st
  else if 127 < get_pixel st.1 x y then
    (add_error (add_error (add_error (add_error
        (set_pixel st.1 x y 255)
        ((x : Int) + 1) y ((get_pixel st.1 x y : Int) - 255) 7)
        ((x : Int) - 1) ((y : Int) + 1) ((get_pixel st.1 x y : Int) - 255) 3)
        x ((y : Int) + 1) ((get_pixel st.1 x y : Int) - 255) 5)
        ((x : Int) + 1) ((y : Int) + 1) ((get_pixel st.1 x y : Int) - 255) 1,
     (st.2.set_pixel x y false).getD st.2)
  else
    (add_error (add_error (add_error (add_error
        (set_pixel st.1 x y 0)
        ((x : Int) + 1) y (get_pixel st.1 x y : Int) 7)
        ((x : Int) - 1) ((y : Int) + 1) (get_pixel st.1 x y : Int) 3)
        x ((y : Int) + 1) (get_pixel st.1 x y : Int) 5)
        ((x : Int) + 1) ((y : Int) + 1) (get_pixel st.1 x y : Int) 1,
     (st.2.set_pixel x y true).getD st.2)

/-- The pixel positions visited by `img.enumerate_pixels()`: row-major,
`x` varying fastest. -/
def positions (w h : Nat) : List (Nat × Nat) :=
  (List.range h).flatMap (fun y => (List.range w).map (fun x => (x, y)))

/-- The dither loop of `Printer::print_image`, starting from a grayscale
buffer (indexed `[x][y]`, `w` columns of height `h`) and a fresh
`BitImage::new(w, h)`. -/
def dither (w h : Nat) (input : List (List Nat)) : List (List Nat) × BitImage :=
  (positions w h).foldl (fun st p => dither_step st p.1 p.2) (input, BitImage.new w h)

end Dither

namespace Printer

/-- Helper `Printer::to_two_byte(num)`: the little-endian bytes of a `u16`
(`to_be_bytes` then `reverse`). -/
def to_two_byte (num : Nat) : List Nat :=
  [num % 256, num / 256 % 256]

/-- The advance of `last_pos` in one iteration of the `print_bitmap` loop:
`range_end = (last_pos + w_bytes * flush_height).clamp(0, bitmap.len())`
with `flush_height = 64`. -/
def chunk_step (wBytes len pos : Nat) : Nat :=
  min (pos + wBytes * 64) len

/-- The `loop` of `Printer::print_bitmap`, fuelled; `none` models running out
of fuel before the `break`.  Returns the framed commands sent with
`write_vec`, in order.  Every iteration emits one command built from the
four-byte `GS v 0` header, the little-endian row width (`w_bytes as u16`) and
part height, and the slice `bitmap[last_pos..range_end]`; afterwards
`last_height` advances by `32` (while the data window advances by up to
`w_bytes * 64` bytes), and the loop breaks once `range_end == bitmap.len()`.
The `u16` additions and the subtraction `next_height - last_height` are
modelled on `Nat`; in the executions analysed here they neither wrap nor
underflow. -/
def print_bitmap_loop (wBytes height : Nat) (bitmap : List Nat) :
    Nat → Nat → Nat → Option (List (List Nat))
  | 0, _, _ => none
  | fuel + 1, lastPos, lastHeight =>
      let rangeEnd := chunk_step wBytes bitmap.length lastPos
      let nextHeight := min (lastHeight + 64) height
      let partHeight := nextHeight - lastHeight
      let cmd := [0x1d, 0x76, 0x30, 0x00] ++ to_two_byte (wBytes % 65536)
                  ++ to_two_byte partHeight ++ (bitmap.drop lastPos).take (rangeEnd - lastPos)
      if rangeEnd = bitmap.length then some [cmd]
      else (print_bitmap_loop wBytes height bitmap fuel rangeEnd (lastHeight + 32)).map
             (fun rest => cmd :: rest)

/-- Transmitter `Printer::print_bitmap(width, height, w_bytes, bitmap)`.  As in the
source, `width` plays no role in the emitted bytes: the guard
`if width > 382 { return }` is commented out, and `width` is only used by
debug printing.  The fuel `bitmap.length + 1` suffices whenever the loop
terminates (each iteration advances `last_pos` by at least one byte when
`w_bytes ≥ 1`). -/
def print_bitmap (width height wBytes : Nat) (bitmap : List Nat) :
    Option (List (List Nat)) :=
  print_bitmap_loop wBytes (height % 65536) bitmap (bitmap.length + 1) 0 0

/-- The bytes reaching the device sink: each framed command is written
byte-by-byte, flushed, and followed by the form feed `0x0c` sent with
`print_bytes(&[0x0c])`. -/
def device_bytes (frames : List (List Nat)) : List Nat :=
  frames.foldr (fun c acc => c ++ 0x0c :: acc) []

end Printer

/-! ## General lemmas about the embedded operations -/

theorem print_bitmap_loop_ne_nil (wB h : Nat) (bm : List Nat) :
    ∀ fuel lastPos lastHeight fs,
      Printer.print_bitmap_loop wB h bm fuel lastPos lastHeight = some fs → fs ≠ [] := by
  intro fuel
  induction fuel with
  | zero =>
      intro _ _ fs hfs
      simp [Printer.print_bitmap_loop] at hfs
  | succ n ih =>
      intro lastPos lastHeight fs hfs
      simp only [Printer.print_bitmap_loop] at hfs
      split at hfs
      · cases hfs
        simp
      · rw [Option.map_eq_some'] at hfs
        obtain ⟨rest, -, hrest⟩ := hfs
        subst hrest
        simp

theorem chunk_step_fixpoint (wB len k : Nat) :
    (fun pos => Printer.chunk_step wB len pos)^[k] len = len := by
  induction k with
  | zero => rfl
  | succ n ih =>
      rw [Function.iterate_succ_apply]
      have hstep : Printer.chunk_step wB len len = len := by
        simp [Printer.chunk_step]
      rw [hstep, ih]

theorem chunk_step_reaches (wB len : Nat) :
    ∀ k pos, pos ≤ len → len ≤ pos + k * (wB * 64) →
      (fun pos => Printer.chunk_step wB len pos)^[k] pos = len := by
  intro k
  induction k with
  | zero =>
      intro pos h1 h2
      simp only [Function.iterate_zero, id]
      omega
  | succ n ih =>
      intro pos h1 h2
      rw [Function.iterate_succ_apply]
      rcases le_or_lt len (pos + wB * 64) with hle | hlt
      · have hstep : Printer.chunk_step wB len pos = len := by
          simp [Printer.chunk_step]
          omega
        rw [hstep, chunk_step_fixpoint]
      · have hstep : Printer.chunk_step wB len pos = pos + wB * 64 := by
          simp [Printer.chunk_step]
          omega
        rw [hstep]
        apply ih
        · omega
        · rw [Nat.succ_mul] at h2
          omega

theorem print_bitmap_loop_isSome (wB h : Nat) (bm : List Nat) (hw : 1 ≤ wB) :
    ∀ fuel lastPos lastHeight, lastPos ≤ bm.length → bm.length - lastPos < fuel →
      (Printer.print_bitmap_loop wB h bm fuel lastPos lastHeight).isSome = true := by
  intro fuel
  induction fuel with
  | zero =>
      intro lastPos _ _ hlt
      omega
  | succ n ih =>
      intro lastPos lastHeight hle hlt
      simp only [Printer.print_bitmap_loop]
      split
      · simp
      · rename_i hne
        rw [Option.isSome_map']
        have h64 : 64 ≤ wB * 64 := by
          calc 64 = 1 * 64 := by omega
            _ ≤ wB * 64 := Nat.mul_le_mul_right 64 hw
        have hstep : Printer.chunk_step wB bm.length lastPos = min (lastPos + wB * 64) bm.length :=
          rfl
        apply ih
        · simp [Printer.chunk_step]
        · simp only [Printer.chunk_step] at hne ⊢
          omega

/-! ## Claim theorems -/

/-- C1, counterexample: the claim says a canvas wider than 382 dots is
rejected before any byte reaches the device sink; at width 383 the call
nevertheless emits a complete frame followed by the form feed. -/
theorem c1_width_limit_counterexample :
    (Printer.print_bitmap 383 8 1 (List.replicate 8 0)).map Printer.device_bytes =
      some [0x1d, 0x76, 0x30, 0x00, 1, 0, 8, 0, 0, 0, 0, 0, 0, 0, 0, 0, 0x0c] ∧
    (Printer.print_bitmap 383 8 1 (List.replicate 8 0)).map Printer.device_bytes ≠
      some [] := by
  constructor
  · rfl
  · decide

/-- C1, amended: the function `print_bitmap` enforces no width limit at all — the
`if width > 382 { return }` guard is commented out, so the emitted bytes do
not depend on the `width` argument, and a call with width above 382 dots
still writes its frames (plus form feeds) to the device sink. -/
theorem c1_no_width_refusal (width height wBytes : Nat) (bitmap : List Nat)
    (h : 382 < width) :
    Printer.print_bitmap width height wBytes bitmap =
      Printer.print_bitmap 0 height wBytes bitmap ∧
    ∀ fs, Printer.print_bitmap width height wBytes bitmap = some fs →
      fs ≠ [] ∧ Printer.device_bytes fs ≠ [] := by
  refine ⟨rfl, ?_⟩
  intro fs hfs
  have hne : fs ≠ [] := print_bitmap_loop_ne_nil _ _ _ _ _ _ _ hfs
  refine ⟨hne, ?_⟩
  cases fs with
  | nil => exact absurd rfl hne
  | cons c rest => simp [Printer.device_bytes]

/-- C1, witness for the amended theorem at width 383. -/
theorem c1_no_width_refusal_witness :
    Printer.print_bitmap 383 8 1 (List.replicate 8 0) =
      Printer.print_bitmap 0 8 1 (List.replicate 8 0) ∧
    ([[0x1d, 0x76, 0x30, 0x00, 1, 0, 8, 0, 0, 0, 0, 0, 0, 0, 0, 0]] : List (List Nat)) ≠ [] ∧
    Printer.device_bytes [[0x1d, 0x76, 0x30, 0x00, 1, 0, 8, 0, 0, 0, 0, 0, 0, 0, 0, 0]] ≠ [] :=
  ⟨(c1_no_width_refusal 383 8 1 (List.replicate 8 0) (by decide)).1,
   (c1_no_width_refusal 383 8 1 (List.replicate 8 0) (by decide)).2
     [[0x1d, 0x76, 0x30, 0x00, 1, 0, 8, 0, 0, 0, 0, 0, 0, 0, 0, 0]] (by decide)⟩

/-- C2: for a canvas of height 100 (one byte per row here) the transmitter
emits exactly two frames with the correct prefix, little-endian fields and
data slices, but the second frame declares chunk-height 64 — not the
remainder 36 the claim requires — because `last_height` advances by 32 while
the data window advances by 64 rows, so the declared height of the second frame is
`min(32 + 64, 100) - 32 = 64` even though it carries only the remaining
36 row bytes. -/
theorem c2_second_chunk_declares_64 :
    Printer.print_bitmap 8 100 1 (List.range 100) =
      some [[0x1d, 0x76, 0x30, 0x00, 1, 0, 64, 0] ++ (List.range 100).take 64,
            [0x1d, 0x76, 0x30, 0x00, 1, 0, 64, 0] ++ (List.range 100).drop 64] ∧
    ((List.range 100).drop 64).length = 36 := by
  constructor
  · rfl
  · rfl

/-- C3: while `set_pixel` writes bit `7 - x % 8` (mask `128 >> x % 8`, MSB-first)
as the claim states, but `get_pixel` tests bit `x % 8` (mask `1 << x % 8`,
LSB-first), so reading pixel (0, 0) immediately after setting it to `true`
returns `false` — contradicting the claim (and the doc example of the struct itself).
The last conjunct shows `get_pixel` answering `true` on a byte whose only set
bit is bit 0, i.e. it reads the LSB for `x = 0`. -/
theorem c3_get_set_bit_mismatch :
    ((BitImage.new 8 1).set_pixel 0 0 true).bind (fun i => i.get_pixel 0 0) = some false ∧
    (BitImage.new 8 1).set_pixel 0 0 true =
      some { bytes := [128], width := 8, height := 1, w_bytes := 1 } ∧
    BitImage.get_pixel { bytes := [1], width := 8, height := 1, w_bytes := 1 } 0 0 =
      some true := by
  decide

/-- C7: both accessors fail (the source panics in `is_within_bounds`,
modelled by `none`) whenever `x` or `y` is negative or at least the
corresponding dimension; the operation is aborted, nothing is clamped. -/
theorem c7_out_of_bounds_fails (img : BitImage) (x y : Int) (v : Bool)
    (h : x < 0 ∨ (img.width : Int) ≤ x ∨ y < 0 ∨ (img.height : Int) ≤ y) :
    img.set_pixel x y v = none ∧ img.get_pixel x y = none := by
  have hb : img.is_within_bounds x y = false := by
    simp only [BitImage.is_within_bounds, if_pos h]
  constructor
  · simp [BitImage.set_pixel, hb]
  · simp [BitImage.get_pixel, hb]

/-- C7, witness: on an 8×4 image both `set(width, 0, true)` and
`set(-1, 0, true)` (and the corresponding reads) fail. -/
theorem c7_out_of_bounds_fails_witness :
    ((BitImage.new 8 4).set_pixel 8 0 true = none ∧
      (BitImage.new 8 4).get_pixel 8 0 = none) ∧
    ((BitImage.new 8 4).set_pixel (-1) 0 true = none ∧
      (BitImage.new 8 4).get_pixel (-1) 0 = none) :=
  ⟨c7_out_of_bounds_fails (BitImage.new 8 4) 8 0 true (by decide),
   c7_out_of_bounds_fails (BitImage.new 8 4) (-1) 0 true (by decide)⟩

/-- C9: with `w_bytes ≥ 1` the chunking loop terminates — `last_pos` reaches
`bitmap.len()` after `ceil(len / (64 * w_bytes))` advances and the fuelled
loop returns a result — while with `w_bytes = 0` and a non-empty bitmap
`last_pos` never advances past 0, so the loop never reaches the `break`. -/
theorem c9_chunk_loop_termination (wBytes len : Nat) :
    (1 ≤ wBytes →
      (fun pos => Printer.chunk_step wBytes len pos)^[(len + wBytes * 64 - 1) / (wBytes * 64)]
        0 = len) ∧
    (1 ≤ wBytes → ∀ width height : Nat, ∀ bitmap : List Nat, bitmap.length = len →
      (Printer.print_bitmap width height wBytes bitmap).isSome = true) ∧
    (0 < len → ∀ k, (fun pos => Printer.chunk_step 0 len pos)^[k] 0 = 0) := by
  refine ⟨?_, ?_, ?_⟩
  · intro hw
    apply chunk_step_reaches wBytes len _ 0 (Nat.zero_le len)
    have hc : 1 ≤ wBytes * 64 := by
      calc 1 ≤ 64 := by omega
        _ = 1 * 64 := by omega
        _ ≤ wBytes * 64 := Nat.mul_le_mul_right 64 hw
    rcases Nat.eq_zero_or_pos len with h0 | hpos
    · simp [h0]
    · have hdm := Nat.div_add_mod (len + wBytes * 64 - 1) (wBytes * 64)
      rw [Nat.mul_comm] at hdm
      have hmod : (len + wBytes * 64 - 1) % (wBytes * 64) < wBytes * 64 :=
        Nat.mod_lt _ (by omega)
      omega
  · intro hw width height bitmap hlen
    unfold Printer.print_bitmap
    apply print_bitmap_loop_isSome _ _ _ hw
    · exact Nat.zero_le _
    · omega
  · intro _ k
    induction k with
    | zero => rfl
    | succ n ih =>
        rw [Function.iterate_succ_apply]
        have hstep : Printer.chunk_step 0 len 0 = 0 := by
          simp [Printer.chunk_step]
        rw [hstep]
        exact ih

/-- C9, witness: at `w_bytes = 1`, `len = 100` the advance map reaches 100
in `ceil(100/64) = 2` steps, the transmitter call succeeds, and with
`w_bytes = 0` the position stays at 0. -/
theorem c9_chunk_loop_termination_witness :
    (fun pos => Printer.chunk_step 1 100 pos)^[2] 0 = 100 ∧
    (Printer.print_bitmap 8 100 1 (List.replicate 100 0)).isSome = true ∧
    (fun pos => Printer.chunk_step 0 100 pos)^[5] 0 = 0 := by
  refine ⟨?_, ?_, ?_⟩
  · have h := (c9_chunk_loop_termination 1 100).1 (by decide)
    simpa using h
  · exact (c9_chunk_loop_termination 1 100).2.1 (by decide) 8 100
      (List.replicate 100 0) (by simp)
  · exact (c9_chunk_loop_termination 0 100).2.2 (by decide) 5

/-! ## Frame and size lemmas for `set_pixel` and the dither loop -/

theorem set_pixel_getD_length (img : BitImage) (x y : Int) (v : Bool) :
    ((img.set_pixel x y v).getD img).bytes.length = img.bytes.length := by
  unfold BitImage.set_pixel
  split
  · cases hget : img.bytes[x.toNat / 8 + y.toNat * img.w_bytes]? with
    | none => simp [hget]
    | some b => simp [hget]
  · simp

theorem dither_step_bytes_length (st : List (List Nat) × BitImage) (x y : Nat) :
    (Dither.dither_step st x y).2.bytes.length = st.2.bytes.length := by
  unfold Dither.dither_step
  split
  · rfl
  · split
    · exact set_pixel_getD_length st.2 x y false
    · exact set_pixel_getD_length st.2 x y true

theorem dither_fold_bytes_length (l : List (Nat × Nat)) :
    ∀ st : List (List Nat) × BitImage,
      (l.foldl (fun st p => Dither.dither_step st p.1 p.2) st).2.bytes.length =
        st.2.bytes.length := by
  induction l with
  | nil => intro st; rfl
  | cons p rest ih =>
      intro st
      rw [List.foldl_cons, ih]
      exact dither_step_bytes_length st p.1 p.2

/-- C8: the constructor `new(w, h)` allocates exactly `ceil(w/8) * h` bytes, all zero;
`set_pixel` never changes the buffer length; and the canvas produced by the
dither loop always has exactly `ceil(w/8) * h` bytes. -/
theorem c8_buffer_size_invariant (w h : Nat) :
    (BitImage.new w h).bytes.length = (w + 7) / 8 * h ∧
    (∀ b ∈ (BitImage.new w h).bytes, b = 0) ∧
    (∀ (img img' : BitImage) (x y : Int) (v : Bool),
        img.set_pixel x y v = some img' → img'.bytes.length = img.bytes.length) ∧
    (∀ input : List (List Nat),
        (Dither.dither w h input).2.bytes.length = (w + 7) / 8 * h) := by
  refine ⟨by simp [BitImage.new], ?_, ?_, ?_⟩
  · intro b hb
    exact List.eq_of_mem_replicate hb
  · intro img img' x y v hset
    unfold BitImage.set_pixel at hset
    split at hset
    · cases hget : img.bytes[x.toNat / 8 + y.toNat * img.w_bytes]? with
      | none => rw [hget] at hset; cases hset
      | some b =>
          rw [hget] at hset
          injection hset with himg
          subst himg
          simp
    · cases hset
  · intro input
    unfold Dither.dither
    rw [dither_fold_bytes_length]
    simp [BitImage.new]

/-- C8, witness: at `w = 12`, `h = 3` the buffer holds `2 * 3 = 6` zero
bytes, a successful `set_pixel` keeps the length, and dithering any buffer
yields a 6-byte canvas. -/
theorem c8_buffer_size_invariant_witness :
    (BitImage.new 12 3).bytes.length = (12 + 7) / 8 * 3 ∧
    ({ bytes := [0, 0, 128, 0, 0, 0], width := 12, height := 3,
       w_bytes := 2 } : BitImage).bytes.length = (BitImage.new 12 3).bytes.length ∧
    (Dither.dither 12 3 [[0]]).2.bytes.length = (12 + 7) / 8 * 3 :=
  ⟨(c8_buffer_size_invariant 12 3).1,
   (c8_buffer_size_invariant 12 3).2.2.1 (BitImage.new 12 3) _ 0 1 true (by decide),
   (c8_buffer_size_invariant 12 3).2.2.2 [[0]]⟩

theorem shiftRight_128_two_pow (m : Nat) (hm : m < 8) : 128 >>> m = 2 ^ (7 - m) := by
  interval_cases m <;> decide

/-- C10: a successful `set_pixel (x, y, v)` leaves `width`, `height`,
`w_bytes` and the buffer length unchanged, changes no byte other than the one
at index `x/8 + y*w_bytes`, and within that byte changes no bit other than
bit `7 - x % 8` (the bit of mask `128 >> (x % 8)`). -/
theorem c10_set_pixel_frame_effect (img img' : BitImage) (x y : Int) (v : Bool)
    (h256 : ∀ b ∈ img.bytes, b < 256)
    (hset : img.set_pixel x y v = some img') :
    img'.width = img.width ∧ img'.height = img.height ∧
    img'.w_bytes = img.w_bytes ∧ img'.bytes.length = img.bytes.length ∧
    (∀ i, i ≠ x.toNat / 8 + y.toNat * img.w_bytes →
        img'.bytes.getD i 0 = img.bytes.getD i 0) ∧
    (∀ j, j ≠ 7 - x.toNat % 8 →
        (img'.bytes.getD (x.toNat / 8 + y.toNat * img.w_bytes) 0).testBit j =
        (img.bytes.getD (x.toNat / 8 + y.toNat * img.w_bytes) 0).testBit j) := by
  unfold BitImage.set_pixel at hset
  split at hset
  case isFalse => cases hset
  case isTrue hin =>
  have hx0 : 0 ≤ x := by
    unfold BitImage.is_within_bounds at hin
    split at hin
    · cases hin
    · omega
  have hxmod : (x % 8).toNat = x.toNat % 8 := by omega
  set p : Nat := x.toNat / 8 + y.toNat * img.w_bytes with hp
  cases hget : img.bytes[p]? with
  | none => rw [hget] at hset; cases hset
  | some b =>
  rw [hget] at hset
  injection hset with himg
  subst himg
  have hplen : p < img.bytes.length := by
    rw [List.getElem?_eq_some] at hget
    exact hget.1
  have hb : img.bytes.getD p 0 = b := by
    rw [List.getD_eq_getElem?_getD, hget]
    rfl
  have hbmem : b ∈ img.bytes := by
    obtain ⟨hlt, heq⟩ := List.getElem?_eq_some.mp hget
    exact heq ▸ List.getElem_mem hlt
  have hblt : b < 256 := h256 b hbmem
  have hk8 : x.toNat % 8 < 8 := Nat.mod_lt _ (by omega)
  have hmask : 128 >>> (x % 8).toNat = 2 ^ (7 - x.toNat % 8) := by
    rw [hxmod]
    exact shiftRight_128_two_pow (x.toNat % 8) hk8
  refine ⟨rfl, rfl, rfl, by simp, ?_, ?_⟩
  · intro i hi
    simp only [List.getD_eq_getElem?_getD, List.getElem?_set]
    rw [if_neg (by omega)]
  · intro j hj
    have hnew : (img.bytes.set p (if v then b ||| 128 >>> (x % 8).toNat
        else b &&& (255 ^^^ 128 >>> (x % 8).toNat))).getD p 0 =
        (if v then b ||| 128 >>> (x % 8).toNat
         else b &&& (255 ^^^ 128 >>> (x % 8).toNat)) := by
      simp only [List.getD_eq_getElem?_getD, List.getElem?_set]
      simp [hplen]
    rw [hnew, hb, hmask]
    cases v with
    | true =>
        rw [if_pos rfl, Nat.testBit_or, Nat.testBit_two_pow]
        simp [Ne.symm hj]
    | false =>
        rw [if_neg (by decide), Nat.testBit_and, Nat.testBit_xor, Nat.testBit_two_pow]
        rcases Nat.lt_or_ge j 8 with hjlt | hjge
        · have h255 : Nat.testBit 255 j = true := by
            have : (255 : Nat) = 2 ^ 8 - 1 := by norm_num
            rw [this, Nat.testBit_two_pow_sub_one]
            simpa using hjlt
          simp [h255, Ne.symm hj]
        · have hbf : Nat.testBit b j = false := by
            apply Nat.testBit_lt_two_pow
            calc b < 256 := hblt
              _ = 2 ^ 8 := by norm_num
              _ ≤ 2 ^ j := Nat.pow_le_pow_right (by omega) hjge
          have h255f : Nat.testBit 255 j = false := by
            apply Nat.testBit_lt_two_pow
            calc (255 : Nat) < 256 := by norm_num
              _ = 2 ^ 8 := by norm_num
              _ ≤ 2 ^ j := Nat.pow_le_pow_right (by omega) hjge
          simp [hbf, h255f]

/-- C10, witness: setting pixel (3, 0) to `false` on a 16×1 image with bytes
`[255, 7]` clears only bit `7 - 3 = 4` of byte 0: byte 1 is untouched and
bit 0 of byte 0 keeps its value. -/
theorem c10_set_pixel_frame_effect_witness :
    ({ bytes := [239, 7], width := 16, height := 1, w_bytes := 2 } : BitImage).width =
      ({ bytes := [255, 7], width := 16, height := 1, w_bytes := 2 } : BitImage).width ∧
    ({ bytes := [239, 7], width := 16, height := 1, w_bytes := 2 } : BitImage).bytes.getD 1 0 =
      ({ bytes := [255, 7], width := 16, height := 1, w_bytes := 2 } : BitImage).bytes.getD 1 0 ∧
    Nat.testBit (({ bytes := [239, 7], width := 16, height := 1, w_bytes := 2 } : BitImage).bytes.getD 0 0) 0 =
      Nat.testBit (({ bytes := [255, 7], width := 16, height := 1, w_bytes := 2 } : BitImage).bytes.getD 0 0) 0 := by
  have h := c10_set_pixel_frame_effect
    { bytes := [255, 7], width := 16, height := 1, w_bytes := 2 }
    { bytes := [239, 7], width := 16, height := 1, w_bytes := 2 }
    3 0 false (by decide) (by decide)
  exact ⟨h.1, h.2.2.2.2.1 1 (by decide), h.2.2.2.2.2 0 (by decide)⟩

/-! ## Lemmas about the dither helpers -/

theorem vecInBounds_true_iff (v : List (List Nat)) (x y : Int) :
    Dither.vecInBounds v x y = true ↔
      0 ≤ x ∧ x < (v.length : Int) ∧ 0 ≤ y ∧ y < ((v.headD []).length : Int) := by
  unfold Dither.vecInBounds
  split
  · simp_all
  · simp_all

theorem getD_replicate_of_lt {α : Type} (i n : Nat) (a d : α) (h : i < n) :
    (List.replicate n a).getD i d = a := by
  rw [List.getD_eq_getElem?_getD, List.getElem?_replicate, if_pos h]
  rfl

theorem headD_replicate_of_pos {α : Type} (n : Nat) (a : List α) (h : 0 < n) :
    (List.replicate n a).headD [] = a := by
  cases n with
  | zero => omega
  | succ m => rfl

/-- C4: in each dither step the current (error-adjusted) sample is compared
with 127: a sample ≤ 127 is written to the canvas as a set bit (dark) and
contributes quantization error `sample - 0`; a sample > 127 is written as a
clear bit (light) and contributes error `sample - 255`.  (The error shows up
as the `val` argument of the four `add_error` calls, and the overwritten
grayscale sample as the `set_pixel` value.) -/
theorem c4_threshold_polarity_error (g : List (List Nat)) (bm : BitImage) (x y : Nat)
    (hx : x < g.length) (hy : y < (g.headD []).length) :
    (Dither.get_pixel g x y ≤ 127 →
      (Dither.dither_step (g, bm) x y).2 = (bm.set_pixel x y true).getD bm ∧
      (Dither.dither_step (g, bm) x y).1 =
        Dither.add_error (Dither.add_error (Dither.add_error (Dither.add_error
          (Dither.set_pixel g x y 0)
          ((x : Int) + 1) y ((Dither.get_pixel g x y : Int) - 0) 7)
          ((x : Int) - 1) ((y : Int) + 1) ((Dither.get_pixel g x y : Int) - 0) 3)
          x ((y : Int) + 1) ((Dither.get_pixel g x y : Int) - 0) 5)
          ((x : Int) + 1) ((y : Int) + 1) ((Dither.get_pixel g x y : Int) - 0) 1) ∧
    (127 < Dither.get_pixel g x y →
      (Dither.dither_step (g, bm) x y).2 = (bm.set_pixel x y false).getD bm ∧
      (Dither.dither_step (g, bm) x y).1 =
        Dither.add_error (Dither.add_error (Dither.add_error (Dither.add_error
          (Dither.set_pixel g x y 255)
          ((x : Int) + 1) y ((Dither.get_pixel g x y : Int) - 255) 7)
          ((x : Int) - 1) ((y : Int) + 1) ((Dither.get_pixel g x y : Int) - 255) 3)
          x ((y : Int) + 1) ((Dither.get_pixel g x y : Int) - 255) 5)
          ((x : Int) + 1) ((y : Int) + 1) ((Dither.get_pixel g x y : Int) - 255) 1) := by
  have hguard : ¬((g, bm).1.length < x ∨ ((g, bm).1.headD []).length < y) := by
    simp only []
    omega
  constructor
  · intro h127
    unfold Dither.dither_step
    rw [if_neg hguard, if_neg (by simp only []; omega : ¬127 < Dither.get_pixel (g, bm).1 x y)]
    exact ⟨rfl, by simp⟩
  · intro h127
    unfold Dither.dither_step
    rw [if_neg hguard, if_pos (by simp only []; omega : 127 < Dither.get_pixel (g, bm).1 x y)]
    exact ⟨rfl, rfl⟩

/-- C4, witness at the 1×1 buffer `[[100]]`: the sample 100 ≤ 127 sets the
bit and propagates error `100 - 0`. -/
theorem c4_threshold_polarity_error_witness :
    (Dither.dither_step ([[100]], BitImage.new 1 1) 0 0).2 =
      ((BitImage.new 1 1).set_pixel 0 0 true).getD (BitImage.new 1 1) ∧
    (Dither.dither_step ([[100]], BitImage.new 1 1) 0 0).1 =
      Dither.add_error (Dither.add_error (Dither.add_error (Dither.add_error
        (Dither.set_pixel [[100]] 0 0 0)
        ((0 : Int) + 1) 0 ((Dither.get_pixel [[100]] 0 0 : Int) - 0) 7)
        ((0 : Int) - 1) ((0 : Int) + 1) ((Dither.get_pixel [[100]] 0 0 : Int) - 0) 3)
        0 ((0 : Int) + 1) ((Dither.get_pixel [[100]] 0 0 : Int) - 0) 5)
        ((0 : Int) + 1) ((0 : Int) + 1) ((Dither.get_pixel [[100]] 0 0 : Int) - 0) 1 :=
  (c4_threshold_polarity_error [[100]] (BitImage.new 1 1) 0 0 (by decide) (by decide)).1
    (by decide)

/-- C5: the helper `add_error` adds exactly `round(val * importance / 16)` to the single
targeted cell, clamped to `[0, 255]`, leaves every other cell and the buffer
shape unchanged, and silently skips out-of-bounds targets; and each dither
step applies it to exactly the four neighbours `(x+1, y)`, `(x-1, y+1)`,
`(x, y+1)`, `(x+1, y+1)` with weights `7/16`, `3/16`, `5/16`, `1/16` of the
quantization error. -/
theorem c5_error_propagation (v : List (List Nat)) (x y val imp : Int)
    (hrect : ∀ col ∈ v, col.length = (v.headD []).length) :
    (Dither.vecInBounds v x y = false → Dither.add_error v x y val imp = v) ∧
    (Dither.add_error v x y val imp).length = v.length ∧
    (∀ i, ((Dither.add_error v x y val imp).getD i []).length = (v.getD i []).length) ∧
    (∀ i j, i < v.length → j < (v.getD i []).length →
      ((Dither.add_error v x y val imp).getD i []).getD j 0 =
        if (i : Int) = x ∧ (j : Int) = y then
          (min (max (((v.getD i []).getD j 0 : Int) + Dither.round_div16 (val * imp)) 0) 255).toNat
        else (v.getD i []).getD j 0) ∧
    (∀ (g : List (List Nat)) (bm : BitImage) (a b : Nat),
      a < g.length → b < (g.headD []).length →
      (Dither.dither_step (g, bm) a b).1 =
        Dither.add_error (Dither.add_error (Dither.add_error (Dither.add_error
          (Dither.set_pixel g a b (if 127 < Dither.get_pixel g a b then 255 else 0))
          ((a : Int) + 1) b (Dither.quant_error g a b) 7)
          ((a : Int) - 1) ((b : Int) + 1) (Dither.quant_error g a b) 3)
          a ((b : Int) + 1) (Dither.quant_error g a b) 5)
          ((a : Int) + 1) ((b : Int) + 1) (Dither.quant_error g a b) 1) := by
  refine ⟨?_, ?_, ?_, ?_, ?_⟩
  · intro hoob
    unfold Dither.add_error
    simp [hoob]
  · unfold Dither.add_error
    split
    · simp
    · rfl
  · intro i
    unfold Dither.add_error
    split
    · simp only [List.getD_eq_getElem?_getD, List.getElem?_set]
      by_cases hix : x.toNat = i
      · subst hix
        by_cases hlt : x.toNat < v.length
        · simp [hlt]
        · simp [hlt, List.getElem?_eq_none (by omega : v.length ≤ x.toNat)]
      · rw [if_neg hix]
    · rfl
  · intro i j hi hj
    by_cases hin : Dither.vecInBounds v x y = true
    · obtain ⟨hx0, hxlt, hy0, hylt⟩ := (vecInBounds_true_iff v x y).mp hin
      unfold Dither.add_error
      rw [if_pos hin]
      by_cases hix : (i : Int) = x
      · have hxi : x.toNat = i := by omega
        by_cases hjy : (j : Int) = y
        · have hyj : y.toNat = j := by omega
          have hj2 : j < (v[i]?.getD []).length := by
            simpa only [List.getD_eq_getElem?_getD] using hj
          simp only [List.getD_eq_getElem?_getD, List.getElem?_set, hxi, hyj,
            if_pos rfl, if_pos hi]
          simp only [if_true, Option.getD_some, List.getElem?_set, if_pos rfl,
            if_pos hj2, Option.getD_some]
          rw [if_pos (show (i : Int) = x ∧ (j : Int) = y from ⟨hix, hjy⟩)]
        · have hyj : y.toNat ≠ j := by omega
          simp only [List.getD_eq_getElem?_getD, List.getElem?_set, hxi, if_pos rfl, if_pos hi]
          simp only [if_true, Option.getD_some, List.getElem?_set, if_neg hyj]
          rw [if_neg (by tauto)]
      · have hxi : x.toNat ≠ i := by omega
        simp only [List.getD_eq_getElem?_getD, List.getElem?_set, if_neg hxi]
        rw [if_neg (by tauto)]
    · have hoob : Dither.vecInBounds v x y = false := by
        cases hcase : Dither.vecInBounds v x y
        · rfl
        · exact absurd hcase hin
      have hskip : Dither.add_error v x y val imp = v := by
        unfold Dither.add_error
        simp [hoob]
      rw [hskip]
      rw [if_neg ?_]
      rintro ⟨hix, hjy⟩
      apply hin
      apply (vecInBounds_true_iff v x y).mpr
      have hcol : (v.getD i []).length = (v.headD []).length := by
        apply hrect
        have : v.getD i [] = v.get ⟨i, hi⟩ := by
          rw [List.getD_eq_getElem v [] hi]
          rfl
        rw [this]
        exact List.get_mem v i hi
      constructor
      · omega
      constructor
      · omega
      constructor
      · omega
      · rw [hcol] at hj
        omega
  · intro g bm a b ha hb
    have hguard : ¬((g, bm).1.length < a ∨ ((g, bm).1.headD []).length < b) := by
      simp only []
      omega
    by_cases h127 : 127 < Dither.get_pixel g a b
    · unfold Dither.dither_step
      rw [if_neg hguard, if_pos (by simpa using h127)]
      have he : Dither.quant_error g a b = (Dither.get_pixel g a b : Int) - 255 := by
        unfold Dither.quant_error
        rw [if_pos h127]
      rw [he, if_pos h127]
    · unfold Dither.dither_step
      rw [if_neg hguard, if_neg (by simpa using h127)]
      have he : Dither.quant_error g a b = (Dither.get_pixel g a b : Int) := by
        unfold Dither.quant_error
        rw [if_neg h127]
        simp
      rw [he, if_neg h127]

/-- C5, witness: on the 2×1 buffer `[[10], [20]]`, propagating error 16 with
weight 7/16 to the in-bounds cell (1, 0) yields `20 + round(16·7/16) = 27`. -/
theorem c5_error_propagation_witness :
    ((Dither.add_error [[10], [20]] 1 0 16 7).getD 1 []).getD 0 0 = 27 := by
  rw [(c5_error_propagation [[10], [20]] 1 0 16 7 (by decide)).2.2.2.1 1 0
    (by decide) (by decide)]
  decide

/-! ## Behaviour of the dither loop on constant buffers -/

theorem mem_positions_bound (w h : Nat) :
    ∀ p ∈ Dither.positions w h, p.1 < w ∧ p.2 < h := by
  intro p hp
  unfold Dither.positions at hp
  rw [List.mem_flatMap] at hp
  obtain ⟨b, hb, hp⟩ := hp
  rw [List.mem_map] at hp
  obtain ⟨a, ha, rfl⟩ := hp
  exact ⟨List.mem_range.mp ha, List.mem_range.mp hb⟩

theorem mem_positions_of_lt (w h x y : Nat) (hx : x < w) (hy : y < h) :
    (x, y) ∈ Dither.positions w h := by
  unfold Dither.positions
  rw [List.mem_flatMap]
  exact ⟨y, List.mem_range.mpr hy, List.mem_map.mpr ⟨x, List.mem_range.mpr hx, rfl⟩⟩

theorem byte_pos_lt (w h a b : Nat) (ha : a < w) (hb : b < h) :
    a / 8 + b * ((w + 7) / 8) < (w + 7) / 8 * h := by
  calc a / 8 + b * ((w + 7) / 8) < (w + 7) / 8 + b * ((w + 7) / 8) := by omega
    _ = (b + 1) * ((w + 7) / 8) := by ring
    _ ≤ h * ((w + 7) / 8) := Nat.mul_le_mul_right _ (by omega)
    _ = (w + 7) / 8 * h := Nat.mul_comm _ _

theorem add_error_zero_replicate (w h c : Nat) (hc : c ≤ 255) (x y imp : Int) :
    Dither.add_error (List.replicate w (List.replicate h c)) x y 0 imp =
      List.replicate w (List.replicate h c) := by
  unfold Dither.add_error
  split
  case isTrue hin =>
    obtain ⟨hx0, hxlt, hy0, hylt⟩ := (vecInBounds_true_iff _ x y).mp hin
    rw [List.length_replicate] at hxlt
    have hw : 0 < w := by omega
    rw [headD_replicate_of_pos w (List.replicate h c) hw, List.length_replicate] at hylt
    rw [getD_replicate_of_lt _ _ _ _ (by omega), getD_replicate_of_lt _ _ _ _ (by omega)]
    have hround : Dither.round_div16 (0 * imp) = 0 := by
      rw [zero_mul]
      decide
    rw [hround]
    dsimp only
    have hval : (min (max ((c : Int) + 0) 0) 255).toNat = c := by omega
    rw [hval, List.set_replicate_self, List.set_replicate_self]
  case isFalse => rfl

theorem set_pixel_replicate_self (w h c : Nat) (x y : Int) :
    Dither.set_pixel (List.replicate w (List.replicate h c)) x y c =
      List.replicate w (List.replicate h c) := by
  unfold Dither.set_pixel
  split
  case isTrue hin =>
    obtain ⟨hx0, hxlt, hy0, hylt⟩ := (vecInBounds_true_iff _ x y).mp hin
    rw [List.length_replicate] at hxlt
    have hw : 0 < w := by omega
    rw [getD_replicate_of_lt _ _ _ _ (by omega), List.set_replicate_self,
      List.set_replicate_self]
  case isFalse => rfl

theorem get_pixel_replicate (w h c : Nat) (x y : Nat) (hx : x < w) (hy : y < h) :
    Dither.get_pixel (List.replicate w (List.replicate h c)) x y = c := by
  have hw : 0 < w := by omega
  unfold Dither.get_pixel
  rw [if_pos ((vecInBounds_true_iff _ _ _).mpr ?_)]
  · rw [Int.toNat_natCast, Int.toNat_natCast,
      getD_replicate_of_lt _ _ _ _ hx, getD_replicate_of_lt _ _ _ _ hy]
  · rw [List.length_replicate, headD_replicate_of_pos w (List.replicate h c) hw,
      List.length_replicate]
    refine ⟨by omega, by omega, by omega, by omega⟩

theorem dither_step_white (w h : Nat) (bm : BitImage) (x y : Nat)
    (hx : x < w) (hy : y < h) :
    Dither.dither_step (List.replicate w (List.replicate h 255), bm) x y =
      (List.replicate w (List.replicate h 255), (bm.set_pixel x y false).getD bm) := by
  have hw : 0 < w := by omega
  have hget := get_pixel_replicate w h 255 x y hx hy
  have hguard : ¬((List.replicate w (List.replicate h 255),
      bm).1.length < x ∨ ((List.replicate w (List.replicate h 255), bm).1.headD []).length < y) := by
    simp only [List.length_replicate,
      headD_replicate_of_pos w (List.replicate h 255) hw]
    omega
  unfold Dither.dither_step
  rw [if_neg hguard, if_pos (by rw [hget]; omega)]
  rw [hget]
  have he : ((255 : Nat) : Int) - 255 = 0 := by norm_num
  rw [he, set_pixel_replicate_self w h 255 x y,
    add_error_zero_replicate w h 255 (by omega) _ _ 7,
    add_error_zero_replicate w h 255 (by omega) _ _ 3,
    add_error_zero_replicate w h 255 (by omega) _ _ 5,
    add_error_zero_replicate w h 255 (by omega) _ _ 1]

theorem dither_step_black (w h : Nat) (bm : BitImage) (x y : Nat)
    (hx : x < w) (hy : y < h) :
    Dither.dither_step (List.replicate w (List.replicate h 0), bm) x y =
      (List.replicate w (List.replicate h 0), (bm.set_pixel x y true).getD bm) := by
  have hw : 0 < w := by omega
  have hget := get_pixel_replicate w h 0 x y hx hy
  have hguard : ¬((List.replicate w (List.replicate h 0),
      bm).1.length < x ∨ ((List.replicate w (List.replicate h 0), bm).1.headD []).length < y) := by
    simp only [List.length_replicate,
      headD_replicate_of_pos w (List.replicate h 0) hw]
    omega
  unfold Dither.dither_step
  rw [if_neg hguard, if_neg (by rw [hget]; omega)]
  rw [hget]
  have he : ((0 : Nat) : Int) = 0 := by norm_num
  rw [he, set_pixel_replicate_self w h 0 x y,
    add_error_zero_replicate w h 0 (by omega) _ _ 7,
    add_error_zero_replicate w h 0 (by omega) _ _ 3,
    add_error_zero_replicate w h 0 (by omega) _ _ 5,
    add_error_zero_replicate w h 0 (by omega) _ _ 1]

theorem getD_set_self (l : List Nat) (i a : Nat) (hi : i < l.length) :
    (l.set i a).getD i 0 = a := by
  rw [List.getD_eq_getElem?_getD, List.getElem?_set, if_pos rfl, if_pos hi]
  rfl

theorem getD_set_ne (l : List Nat) (i j a : Nat) (hij : i ≠ j) :
    (l.set i a).getD j 0 = l.getD j 0 := by
  rw [List.getD_eq_getElem?_getD, List.getElem?_set, if_neg hij, ← List.getD_eq_getElem?_getD]

theorem is_within_bounds_true_iff (img : BitImage) (x y : Int) :
    img.is_within_bounds x y = true ↔
      0 ≤ x ∧ x < (img.width : Int) ∧ 0 ≤ y ∧ y < (img.height : Int) := by
  unfold BitImage.is_within_bounds
  by_cases hcond : x < 0 ∨ (img.width : Int) ≤ x ∨ y < 0 ∨ (img.height : Int) ≤ y
  · rw [if_pos hcond]
    constructor
    · intro hf
      exact absurd hf (by simp)
    · intro hrhs
      exact absurd hrhs (by omega)
  · rw [if_neg hcond]
    constructor
    · intro _
      omega
    · intro _
      rfl

theorem set_pixel_eq_some (bm : BitImage) (x y : Int) (v : Bool)
    (hin : bm.is_within_bounds x y = true)
    (hp : x.toNat / 8 + y.toNat * bm.w_bytes < bm.bytes.length) :
    bm.set_pixel x y v = some { bm with
      bytes := bm.bytes.set (x.toNat / 8 + y.toNat * bm.w_bytes)
        (if v then bm.bytes.getD (x.toNat / 8 + y.toNat * bm.w_bytes) 0 ||| 128 >>> (x % 8).toNat
         else bm.bytes.getD (x.toNat / 8 + y.toNat * bm.w_bytes) 0 &&&
           (255 ^^^ 128 >>> (x % 8).toNat)) } := by
  have hg : bm.bytes[x.toNat / 8 + y.toNat * bm.w_bytes]? =
      some (bm.bytes.getD (x.toNat / 8 + y.toNat * bm.w_bytes) 0) := by
    rw [List.getElem?_eq_getElem hp, List.getD_eq_getElem _ _ hp]
  unfold BitImage.set_pixel
  rw [hin, if_pos rfl, hg]

theorem set_pixel_none_of_oob (bm : BitImage) (x y : Int) (v : Bool)
    (hin : bm.is_within_bounds x y = false) :
    bm.set_pixel x y v = none := by
  unfold BitImage.set_pixel
  rw [hin]
  simp

theorem getD_replicate_zero (n i : Nat) : (List.replicate n (0 : Nat)).getD i 0 = 0 := by
  rcases Nat.lt_or_ge i n with hlt | hge
  · exact getD_replicate_of_lt i n 0 0 hlt
  · rw [List.getD_eq_getElem?_getD, List.getElem?_replicate, if_neg (by omega)]
    rfl

theorem set_pixel_false_new (w h : Nat) (x y : Nat) :
    (((BitImage.new w h).set_pixel x y false).getD (BitImage.new w h)) =
      BitImage.new w h := by
  by_cases hin : (BitImage.new w h).is_within_bounds x y = true
  · obtain ⟨h1, h2, h3, h4⟩ := (is_within_bounds_true_iff _ _ _).mp hin
    have hxw : x < w := by
      have : ((BitImage.new w h).width : Int) = (w : Int) := rfl
      omega
    have hyh : y < h := by
      have : ((BitImage.new w h).height : Int) = (h : Int) := rfl
      omega
    have hp : ((x : Int)).toNat / 8 + ((y : Int)).toNat * (BitImage.new w h).w_bytes <
        (BitImage.new w h).bytes.length := by
      rw [Int.toNat_natCast, Int.toNat_natCast]
      show x / 8 + y * ((w + 7) / 8) < (List.replicate ((w + 7) / 8 * h) 0).length
      rw [List.length_replicate]
      exact byte_pos_lt w h x y hxw hyh
    have hset := set_pixel_eq_some (BitImage.new w h) x y false hin hp
    rw [if_neg (by simp)] at hset
    rw [hset]
    simp only [Option.getD_some]
    have hb0 : (BitImage.new w h).bytes.getD
        (((x : Int)).toNat / 8 + ((y : Int)).toNat * (BitImage.new w h).w_bytes) 0 = 0 :=
      getD_replicate_zero _ _
    rw [hb0, Nat.zero_and]
    have hbytes : (BitImage.new w h).bytes = List.replicate ((w + 7) / 8 * h) 0 := rfl
    rw [hbytes, List.set_replicate_self]
    rfl
  · have hf : (BitImage.new w h).is_within_bounds x y = false := by
      cases hc : (BitImage.new w h).is_within_bounds (x : Int) (y : Int)
      · rfl
      · exact absurd hc hin
    rw [set_pixel_none_of_oob _ _ _ _ hf]
    rfl

theorem set_pixel_true_getD_facts (bm : BitImage) (x y : Nat)
    (hx : x < bm.width) (hy : y < bm.height)
    (hp : x / 8 + y * bm.w_bytes < bm.bytes.length) :
    ((bm.set_pixel x y true).getD bm).width = bm.width ∧
    ((bm.set_pixel x y true).getD bm).height = bm.height ∧
    ((bm.set_pixel x y true).getD bm).w_bytes = bm.w_bytes ∧
    ((bm.set_pixel x y true).getD bm).bytes.length = bm.bytes.length ∧
    BitImage.pixel_bit ((bm.set_pixel x y true).getD bm) x y = true ∧
    (∀ a b : Nat, BitImage.pixel_bit bm a b = true →
      BitImage.pixel_bit ((bm.set_pixel x y true).getD bm) a b = true) := by
  have hin : bm.is_within_bounds x y = true :=
    (is_within_bounds_true_iff bm x y).mpr ⟨by omega, by omega, by omega, by omega⟩
  have hxt : ((x : Int)).toNat = x := Int.toNat_natCast x
  have hyt : ((y : Int)).toNat = y := Int.toNat_natCast y
  have hp2 : ((x : Int)).toNat / 8 + ((y : Int)).toNat * bm.w_bytes < bm.bytes.length := by
    rw [hxt, hyt]
    exact hp
  have hmask : 128 >>> (((x : Int)) % 8).toNat = 2 ^ (7 - x % 8) := by
    have hxm : (((x : Int)) % 8).toNat = x % 8 := by omega
    rw [hxm]
    exact shiftRight_128_two_pow (x % 8) (Nat.mod_lt _ (by omega))
  have hset := set_pixel_eq_some bm x y true hin hp2
  rw [if_pos rfl, hxt, hyt, hmask] at hset
  rw [hset]
  simp only [Option.getD_some]
  refine ⟨by trivial, by trivial, by trivial, by simp, ?_, ?_⟩
  · unfold BitImage.pixel_bit
    show ((bm.bytes.set (x / 8 + y * bm.w_bytes) _).getD (x / 8 + y * bm.w_bytes) 0).testBit
      (7 - x % 8) = true
    rw [getD_set_self _ _ _ hp, Nat.testBit_or, Nat.testBit_two_pow]
    simp
  · intro a b hbit
    unfold BitImage.pixel_bit at hbit ⊢
    show ((bm.bytes.set (x / 8 + y * bm.w_bytes) _).getD (a / 8 + b * bm.w_bytes) 0).testBit
      (7 - a % 8) = true
    by_cases hq : x / 8 + y * bm.w_bytes = a / 8 + b * bm.w_bytes
    · rw [← hq] at hbit ⊢
      rw [getD_set_self _ _ _ hp, Nat.testBit_or, hbit]
      rfl
    · rw [getD_set_ne _ _ _ _ hq]
      exact hbit

theorem dither_fold_white (w h : Nat) (l : List (Nat × Nat))
    (hl : ∀ p ∈ l, p.1 < w ∧ p.2 < h) :
    l.foldl (fun st p => Dither.dither_step st p.1 p.2)
      (List.replicate w (List.replicate h 255), BitImage.new w h) =
      (List.replicate w (List.replicate h 255), BitImage.new w h) := by
  induction l with
  | nil => rfl
  | cons q rest ih =>
      rw [List.foldl_cons]
      obtain ⟨hq1, hq2⟩ := hl q (List.mem_cons_self q rest)
      rw [dither_step_white w h (BitImage.new w h) q.1 q.2 hq1 hq2,
        set_pixel_false_new w h q.1 q.2]
      exact ih (fun p hp => hl p (List.mem_cons_of_mem q hp))

theorem dither_fold_black (w h : Nat) (l : List (Nat × Nat)) :
    ∀ bm : BitImage, (∀ p ∈ l, p.1 < w ∧ p.2 < h) →
      bm.width = w → bm.height = h → bm.w_bytes = (w + 7) / 8 →
      bm.bytes.length = (w + 7) / 8 * h →
      (∀ x y : Nat, ((x, y) ∈ l ∨ BitImage.pixel_bit bm x y = true) →
        BitImage.pixel_bit
          (l.foldl (fun st p => Dither.dither_step st p.1 p.2)
            (List.replicate w (List.replicate h 0), bm)).2 x y = true) := by
  induction l with
  | nil =>
      intro bm _ _ _ _ _ x y hmem
      rcases hmem with hmem | hbit
      · exact absurd hmem (List.not_mem_nil (x, y))
      · exact hbit
  | cons q rest ih =>
      intro bm hl hbw hbh hbwb hblen x y hmem
      obtain ⟨hq1, hq2⟩ := hl q (List.mem_cons_self q rest)
      rw [List.foldl_cons, dither_step_black w h bm q.1 q.2 hq1 hq2]
      have hp : q.1 / 8 + q.2 * bm.w_bytes < bm.bytes.length := by
        rw [hbwb, hblen]
        exact byte_pos_lt w h q.1 q.2 hq1 hq2
      obtain ⟨hw1, hw2, hw3, hw4, hbitq, hmono⟩ :=
        set_pixel_true_getD_facts bm q.1 q.2 (by omega) (by omega) hp
      apply ih ((bm.set_pixel q.1 q.2 true).getD bm)
        (fun p hp => hl p (List.mem_cons_of_mem q hp))
        (by omega) (by omega) (by omega) (by omega)
      rcases hmem with hmem | hbit
      · rcases List.mem_cons.mp hmem with heq | hmem'
        · right
          have h1 : x = q.1 := congrArg Prod.fst heq
          have h2 : y = q.2 := congrArg Prod.snd heq
          rw [h1, h2]
          exact hbitq
        · left
          exact hmem'
      · right
        exact hmono x y hbit

/-- C6: dithering a uniform all-white buffer (every sample 255) yields a
canvas whose every byte is zero (no dark dots); dithering a uniform all-black
buffer (every sample 0) sets the bit of every in-bounds pixel (row padding
bits, which correspond to no pixel, stay zero). -/
theorem c6_uniform_extremes (w h : Nat) :
    (Dither.dither w h (List.replicate w (List.replicate h 255))).2.bytes =
      List.replicate ((w + 7) / 8 * h) 0 ∧
    (∀ x y, x < w → y < h →
      BitImage.pixel_bit (Dither.dither w h (List.replicate w (List.replicate h 0))).2 x y =
        true) := by
  constructor
  · unfold Dither.dither
    rw [dither_fold_white w h (Dither.positions w h) (mem_positions_bound w h)]
    rfl
  · intro x y hx hy
    unfold Dither.dither
    exact dither_fold_black w h (Dither.positions w h) (BitImage.new w h)
      (mem_positions_bound w h) rfl rfl rfl (by simp [BitImage.new]) x y
      (Or.inl (mem_positions_of_lt w h x y hx hy))

/-- C6, witness at an 8×1 canvas: all-white dithers to the zero byte, and
all-black sets the bit of pixel (3, 0). -/
theorem c6_uniform_extremes_witness :
    (Dither.dither 8 1 (List.replicate 8 (List.replicate 1 255))).2.bytes =
      List.replicate ((8 + 7) / 8 * 1) 0 ∧
    BitImage.pixel_bit (Dither.dither 8 1 (List.replicate 8 (List.replicate 1 0))).2 3 0 =
      true :=
  ⟨(c6_uniform_extremes 8 1).1, (c6_uniform_extremes 8 1).2 3 0 (by decide) (by decide)⟩
